import Mathlib

/-!
# Verification of the email validator (`Challenge_1/v2/email_validator_cli.py`)

This file gives a shallow embedding of the `validate_email` function and
proves properties of it.  Python strings are modelled as `List Char`;
the functions below mirror, check by check, the Python source:

```python
def validate_email(email):
    if not email or not isinstance(email, str):
        return False, "Email cannot be empty"
    email = email.strip()
    if len(email) > 254:
        return False, "Email exceeds maximum length of 254 characters"
    if email.count('@') != 1:
        return False, "Email must contain exactly one @ symbol"
    try:
        local, domain = email.rsplit('@', 1)
    except ValueError:
        return False, "Invalid email format"
    if not local or len(local) > 64:
        return False, "Local part must be 1-64 characters"
    local_pattern = r'^[a-zA-Z0-9]+([._+-][a-zA-Z0-9]+)*$'
    if not re.match(local_pattern, local):
        return False, "Local part contains invalid characters or format"
    if '..' in local:
        return False, "Local part cannot contain consecutive dots"
    if not domain or len(domain) < 3:
        return False, "Domain part is too short"
    domain_pattern = r'^([a-zA-Z0-9]([a-zA-Z0-9-]{0,61}[a-zA-Z0-9])?\.)+[a-zA-Z]{2,}$'
    if not re.match(domain_pattern, domain):
        return False, "Domain contains invalid characters or format"
    labels = domain.split('.')
    for label in labels:
        if len(label) > 63:
            return False, "Domain label exceeds 63 characters"
        if label.startswith('-') or label.endswith('-'):
            return False, "Domain labels cannot start or end with hyphen"
    tld = labels[-1]
    if len(tld) < 2:
        return False, "Top-level domain must be at least 2 characters"
    return True, "Valid email address"
```

A Python subtlety that the embedding keeps: in `re.match`, the anchor `$`
matches at the end of the string *or just before a newline at the end of
the string*, so `re.match(r'^abc$', 'abc\n')` succeeds.  Both patterns
here end in `$`, hence each regex check also accepts the matched text
followed by one trailing `'\n'`.
-/

namespace EmailValidator

/-- The character class `[a-zA-Z]` of the regexes (ASCII letters only,
exactly what the Python patterns match). -/
def isAsciiAlpha (c : Char) : Bool :=
  ('a' ≤ c && c ≤ 'z') || ('A' ≤ c && c ≤ 'Z')

/-- The character class `[0-9]`. -/
def isAsciiDigit (c : Char) : Bool :=
  '0' ≤ c && c ≤ '9'

/-- The character class `[a-zA-Z0-9]`. -/
def isAsciiAlnum (c : Char) : Bool :=
  isAsciiAlpha c || isAsciiDigit c

/-- The separator class `[._+-]` of the local-part regex. -/
def isSepChar (c : Char) : Bool :=
  c = '.' || c = '_' || c = '+' || c = '-'

/-- The characters stripped by Python's `str.strip()` — the characters
for which `str.isspace()` is true: ASCII whitespace `\t \n \v \f \r`,
space, the file/group/record/unit separators `0x1c`–`0x1f`, NEL `0x85`,
and the Unicode space/line/paragraph separators. -/
def isPySpace (c : Char) : Bool :=
  c = ' ' || c = '\t' || c = '\n' || c = '\r' ||
  c.toNat = 0x0b || c.toNat = 0x0c ||
  (0x1c ≤ c.toNat && c.toNat ≤ 0x1f) ||
  c.toNat = 0x85 || c.toNat = 0xa0 || c.toNat = 0x1680 ||
  (0x2000 ≤ c.toNat && c.toNat ≤ 0x200a) ||
  c.toNat = 0x2028 || c.toNat = 0x2029 || c.toNat = 0x202f ||
  c.toNat = 0x205f || c.toNat = 0x3000

/-- Python `email.strip()`: remove leading, then trailing, whitespace. -/
def pyStrip (s : List Char) : List Char :=
  (s.dropWhile isPySpace).rdropWhile isPySpace

/-- Python `email.rsplit('@', 1)` followed by unpacking into two
variables.  `rsplit('@', 1)` splits at the *last* `'@'`; unpacking the
resulting list into `local, domain` raises `ValueError` exactly when the
list has one element, i.e. when the string contains no `'@'` — the
`none` result here. -/
def rsplitAt : List Char → Option (List Char × List Char)
  | [] => none
  | c :: cs =>
    match rsplitAt cs with
    | some (l, d) => some (c :: l, d)
    | none => if c = '@' then some ([], cs) else none

/-- Recogniser for the regex body `[a-zA-Z0-9]+([._+-][a-zA-Z0-9]+)*`
matched against the whole list.  The flag `seen` records whether the
previous character was alphanumeric (so the match may stop here or take
a separator next).  Initially, and right after a separator, `seen` is
`false` and only an alphanumeric character may follow. -/
def localAccept : List Char → Bool → Bool
  | [], seen => seen
  | c :: cs, seen =>
    if isAsciiAlnum c then localAccept cs true
    else if isSepChar c && seen then localAccept cs false
    else false

/-- The regex body of `local_pattern` matched against the entire list. -/
def localCore (l : List Char) : Bool :=
  localAccept l false

/-- Python `re.match(r'^[a-zA-Z0-9]+([._+-][a-zA-Z0-9]+)*$', local)`
viewed as a Boolean.  Because `$` also matches just before a trailing
newline, the regex accepts `l` itself or `l` minus one final `'\n'`. -/
def reMatchLocal (l : List Char) : Bool :=
  localCore l || (l.getLast? == some '\n' && localCore l.dropLast)

/-- Python `'..' in local`. -/
def hasDoubleDot : List Char → Bool
  | [] => false
  | [_] => false
  | a :: b :: rest => (a == '.' && b == '.') || hasDoubleDot (b :: rest)

/-- Python `domain.split('.')` (split on every dot; empty pieces are
kept, and `''.split('.') == ['']`). -/
def pySplitDot : List Char → List (List Char)
  | [] => [[]]
  | c :: cs =>
    match pySplitDot cs with
    | [] => [[]]
    | p :: ps => if c = '.' then [] :: p :: ps else (c :: p) :: ps

/-- The group `[a-zA-Z0-9]([a-zA-Z0-9-]{0,61}[a-zA-Z0-9])?` of
`domain_pattern`: a label of length 1 that is alphanumeric, or of length
2–63 whose first and last characters are alphanumeric and whose
characters are alphanumerics or hyphens. -/
def goodLabel (l : List Char) : Bool :=
  1 ≤ l.length && l.length ≤ 63 &&
  isAsciiAlnum (l.headD ' ') && isAsciiAlnum (l.getLastD ' ') &&
  l.all (fun c => isAsciiAlnum c || c = '-')

/-- The tail `[a-zA-Z]{2,}` of `domain_pattern`: two or more ASCII
letters. -/
def tldOk (l : List Char) : Bool :=
  2 ≤ l.length && l.all isAsciiAlpha

/-- The regex body of `domain_pattern`,
`([a-zA-Z0-9]([a-zA-Z0-9-]{0,61}[a-zA-Z0-9])?\.)+[a-zA-Z]{2,}`, matched
against the entire list.  A string is in this language exactly when
splitting it on `'.'` yields at least two pieces, every piece before the
last is a label group and the last piece matches `[a-zA-Z]{2,}`: the
groups are separated by literal dots and neither a label nor the tail
may contain a dot, so the dot-split recovers the unique decomposition. -/
def domainCore (d : List Char) : Bool :=
  let parts := pySplitDot d
  2 ≤ parts.length && parts.dropLast.all goodLabel && tldOk (parts.getLastD [])

/-- Python `re.match(domain_pattern, domain)` viewed as a Boolean; as
with the local pattern, `$` also matches just before a trailing
newline. -/
def reMatchDomain (d : List Char) : Bool :=
  domainCore d || (d.getLast? == some '\n' && domainCore d.dropLast)

/-- The `for label in labels:` loop: the first label failing a check
determines the message (length is tested before hyphen placement);
`none` means every label passed both checks. -/
def checkLabels : List (List Char) → Option String
  | [] => none
  | l :: ls =>
    if l.length > 63 then some "Domain label exceeds 63 characters"
    else if l.head? == some '-' || l.getLast? == some '-' then
      some "Domain labels cannot start or end with hyphen"
    else checkLabels ls

/-- The checks performed after `email = email.strip()`, on the stripped
string `e`.  `locPart`/`domPart` stand for the Python variables
`local`/`domain` (`local` is a Lean keyword). -/
def validateTrimmed (e : List Char) : Bool × String :=
  if e.length > 254 then (false, "Email exceeds maximum length of 254 characters")
  else if e.count '@' ≠ 1 then (false, "Email must contain exactly one @ symbol")
  else
    match rsplitAt e with
    | none => (false, "Invalid email format")
    | some (locPart, domPart) =>
      if locPart.isEmpty || locPart.length > 64 then
        (false, "Local part must be 1-64 characters")
      else if !reMatchLocal locPart then
        (false, "Local part contains invalid characters or format")
      else if hasDoubleDot locPart then
        (false, "Local part cannot contain consecutive dots")
      else if domPart.isEmpty || domPart.length < 3 then
        (false, "Domain part is too short")
      else if !reMatchDomain domPart then
        (false, "Domain contains invalid characters or format")
      else
        match checkLabels (pySplitDot domPart) with
        | some msg => (false, msg)
        | none =>
          if ((pySplitDot domPart).getLastD []).length < 2 then
            (false, "Top-level domain must be at least 2 characters")
          else (true, "Valid email address")

/-- A Python value passed to `validate_email`: `None`, a non-string
object (carrying only its truthiness, all the guard can observe of it),
or a string. -/
inductive PyInput where
  | none
  | nonStr (truthy : Bool)
  | str (s : List Char)

/-- The function `validate_email`.  The guard
`if not email or not isinstance(email, str)` fires for `None` (falsy),
for every non-string (falsy ones via `not email`, truthy ones via the
`isinstance` test) and for the empty string; everything else is
stripped and run through the remaining checks. -/
def validate_email : PyInput → Bool × String
  | PyInput.none => (false, "Email cannot be empty")
  | PyInput.nonStr _ => (false, "Email cannot be empty")
  | PyInput.str s =>
    if s.isEmpty then (false, "Email cannot be empty")
    else validateTrimmed (pyStrip s)

/-! ## Supporting lemmas -/

/-- The head of `dropWhile p l` (if any) does not satisfy `p`. -/
lemma dropWhile_head_false {p : Char → Bool} :
    ∀ l : List Char, ∀ c, (l.dropWhile p).head? = some c → p c = false := by
  intro l
  induction l with
  | nil => intro c hc; simp [List.dropWhile] at hc
  | cons a as ih =>
    intro c hc
    by_cases ha : p a
    · rw [List.dropWhile_cons_of_pos ha] at hc
      exact ih c hc
    · rw [List.dropWhile_cons_of_neg ha] at hc
      simp at hc
      rw [← hc]
      exact Bool.eq_false_iff.mpr ha

/-- A list whose head (if any) does not satisfy `p` is unchanged by
`dropWhile p`. -/
lemma dropWhile_eq_self_of_head {p : Char → Bool} (l : List Char)
    (h : ∀ c, l.head? = some c → p c = false) : l.dropWhile p = l := by
  cases l with
  | nil => simp
  | cons a as =>
    have := h a (by simp)
    simp [List.dropWhile_cons, this]

/-- A nonempty `rdropWhile p l` has the same head as `l`. -/
lemma head?_rdropWhile {p : Char → Bool} (l : List Char)
    (h : l.rdropWhile p ≠ []) : (l.rdropWhile p).head? = l.head? := by
  unfold List.rdropWhile at *
  have hdw : l.reverse.dropWhile p ≠ [] := by
    intro hnil; exact h (by rw [hnil]; simp)
  obtain ⟨t, ht⟩ := List.dropWhile_suffix (l := l.reverse) (p := p)
  have h1 : (l.reverse.dropWhile p).reverse.head? = (l.reverse.dropWhile p).getLast? := by
    rw [List.head?_reverse]
  have h2 : (l.reverse.dropWhile p).getLast? = l.reverse.getLast? := by
    conv_rhs => rw [← ht]
    rw [List.getLast?_append_of_ne_nil _ hdw]
  rw [h1, h2, List.getLast?_reverse]

/-- Stripping is idempotent. -/
lemma pyStrip_idem (s : List Char) : pyStrip (pyStrip s) = pyStrip s := by
  unfold pyStrip
  have hdw : ((s.dropWhile isPySpace).rdropWhile isPySpace).dropWhile isPySpace
      = (s.dropWhile isPySpace).rdropWhile isPySpace := by
    by_cases hnil : (s.dropWhile isPySpace).rdropWhile isPySpace = []
    · rw [hnil]; simp
    · refine dropWhile_eq_self_of_head _ fun c hc => ?_
      rw [head?_rdropWhile _ hnil] at hc
      exact dropWhile_head_false _ c hc
  rw [hdw, List.rdropWhile_idempotent]

/-- The stripped string is empty when the string is all whitespace. -/
lemma pyStrip_eq_nil_of_space (s : List Char)
    (h : ∀ c ∈ s, isPySpace c = true) : pyStrip s = [] := by
  unfold pyStrip
  have : s.dropWhile isPySpace = [] := List.dropWhile_eq_nil_iff.mpr h
  rw [this]
  simp [List.rdropWhile]

/-- The last character of a nonempty stripped string is not whitespace. -/
lemma pyStrip_getLast_not_space (s : List Char) (c : Char)
    (h : (pyStrip s).getLast? = some c) : isPySpace c = false := by
  unfold pyStrip at h
  have hne : (s.dropWhile isPySpace).rdropWhile isPySpace ≠ [] := by
    intro hnil; rw [hnil] at h; simp at h
  have hlast := List.rdropWhile_last_not isPySpace (s.dropWhile isPySpace) hne
  have h2 := List.getLast?_eq_getLast ((s.dropWhile isPySpace).rdropWhile isPySpace) hne
  rw [h2] at h
  have hc := Option.some_inj.mp h
  rw [hc] at hlast
  exact Bool.eq_false_iff.mpr hlast

/-- A successful `rsplit` decomposes the string around an `'@'`. -/
lemma rsplitAt_eq_append (e l d : List Char) (h : rsplitAt e = some (l, d)) :
    e = l ++ '@' :: d := by
  induction e generalizing l d with
  | nil => simp [rsplitAt] at h
  | cons c cs ih =>
    rw [rsplitAt] at h
    cases hcs : rsplitAt cs with
    | some p =>
      obtain ⟨l0, d0⟩ := p
      rw [hcs] at h
      simp at h
      obtain ⟨hl, hd⟩ := h
      rw [← hl, ← hd]
      have := ih l0 d0 hcs
      rw [List.cons_append, ← this]
    | none =>
      rw [hcs] at h
      by_cases hc : c = '@'
      · simp [hc] at h
        obtain ⟨hl, hd⟩ := h
        simp [hl, hc, ← hd]
      · simp [hc] at h

/-- `rsplit` fails only on strings without `'@'`. -/
lemma rsplitAt_none_count (e : List Char) (h : rsplitAt e = none) :
    e.count '@' = 0 := by
  induction e with
  | nil => simp
  | cons c cs ih =>
    rw [rsplitAt] at h
    cases hcs : rsplitAt cs with
    | some p => rw [hcs] at h; simp at h
    | none =>
      rw [hcs] at h
      by_cases hc : c = '@'
      · simp [hc] at h
      · rw [List.count_cons]
        simp [ih hcs, hc]

/-- When the label loop reports no failure, every label is short enough
and hyphen-free at both ends. -/
lemma checkLabels_eq_none (ls : List (List Char)) (h : checkLabels ls = none) :
    ∀ l ∈ ls, l.length ≤ 63 ∧ l.head? ≠ some '-' ∧ l.getLast? ≠ some '-' := by
  induction ls with
  | nil => intro l hl; simp at hl
  | cons a as ih =>
    rw [checkLabels] at h
    by_cases h63 : a.length > 63
    · simp [h63] at h
    · rw [if_neg h63] at h
      by_cases hhy : (a.head? == some '-' || a.getLast? == some '-') = true
      · simp [hhy] at h
      · rw [if_neg hhy] at h
        intro l hl
        rcases List.mem_cons.mp hl with hla | hlas
        · subst hla
          simp only [Bool.or_eq_true, beq_iff_eq, not_or] at hhy
          exact ⟨by omega, hhy.1, hhy.2⟩
        · exact ih h l hlas

/-- An alphanumeric character is not a dot. -/
lemma isAsciiAlnum_ne_dot (c : Char) (h : isAsciiAlnum c = true) : c ≠ '.' := by
  intro hc
  rw [hc] at h
  exact absurd h (by decide)

/-- The local-part state machine never accepts a string containing two
adjacent dots: right after a separator only an alphanumeric character is
allowed. -/
lemma localAccept_no_double_dot :
    ∀ (l : List Char) (b : Bool), localAccept l b = true → hasDoubleDot l = false := by
  intro l
  induction l with
  | nil => intro b _; rfl
  | cons a tail ih =>
    intro b hacc
    cases tail with
    | nil => rfl
    | cons x xs =>
      rw [localAccept] at hacc
      by_cases ha : isAsciiAlnum a
      · rw [if_pos ha] at hacc
        rw [hasDoubleDot]
        have hne := isAsciiAlnum_ne_dot a ha
        simp [hne, ih true hacc]
      · rw [if_neg ha] at hacc
        by_cases hsep : (isSepChar a && b) = true
        · rw [if_pos hsep] at hacc
          -- after a separator the state is `false`, so `x` must be alphanumeric
          have hx : isAsciiAlnum x = true := by
            rw [localAccept] at hacc
            by_cases hx0 : isAsciiAlnum x
            · exact hx0
            · simp [hx0] at hacc
          rw [hasDoubleDot]
          have hne := isAsciiAlnum_ne_dot x hx
          simp [hne, ih false hacc]
        · rw [if_neg hsep] at hacc
          exact absurd hacc (by simp)

/-- Removing the final character of a string ending in a newline keeps
any two adjacent dots. -/
lemma hasDoubleDot_dropLast :
    ∀ l : List Char, l.getLast? = some '\n' → hasDoubleDot l = true →
      hasDoubleDot l.dropLast = true := by
  intro l
  induction l with
  | nil => intro h _; simp at h
  | cons a tail ih =>
    intro hlast hdd
    cases tail with
    | nil =>
      simp [hasDoubleDot] at hdd
    | cons x xs =>
      rw [List.getLast?_cons_cons] at hlast
      rw [hasDoubleDot] at hdd
      cases xs with
      | nil =>
        -- the last character is `x = '\n'`, so no adjacent dots exist at all
        simp at hlast
        subst hlast
        have he1 : ('\n' == '.') = false := by decide
        have he2 : hasDoubleDot ['\n'] = false := by decide
        rw [he1, he2] at hdd
        simp at hdd
      | cons y ys =>
        have hdl : (a :: x :: y :: ys).dropLast = a :: (x :: y :: ys).dropLast := by
          simp [List.dropLast]
        have hdl2 : (x :: y :: ys).dropLast = x :: (y :: ys).dropLast := by
          simp [List.dropLast]
        rw [hdl, hdl2, hasDoubleDot]
        rcases (Bool.or_eq_true _ _).mp hdd with hab | htail
        · rw [hab]; simp
        · have hdd2 := ih hlast htail
          rw [hdl2] at hdd2
          rw [hdd2]
          simp

/-- A matched local part has no two adjacent dots (this holds for both
ways the `$` anchor can match). -/
lemma reMatchLocal_no_double_dot (l : List Char) (h : reMatchLocal l = true) :
    hasDoubleDot l = false := by
  rw [reMatchLocal] at h
  rcases (Bool.or_eq_true _ _).mp h with hcore | hnl
  · exact localAccept_no_double_dot l false hcore
  · simp only [Bool.and_eq_true, beq_iff_eq] at hnl
    obtain ⟨hlast, hcore⟩ := hnl
    by_cases hdd : hasDoubleDot l = true
    · have := hasDoubleDot_dropLast l hlast hdd
      have h2 := localAccept_no_double_dot l.dropLast false hcore
      rw [localCore] at hcore
      rw [this] at h2
      exact absurd h2 (by simp)
    · exact Bool.eq_false_iff.mpr hdd

/-- Unfolding of `pySplitDot` on a cons, given the split of the tail. -/
lemma pySplitDot_cons (c : Char) (cs p : List Char) (ps : List (List Char))
    (h : pySplitDot cs = p :: ps) :
    pySplitDot (c :: cs) = if c = '.' then [] :: p :: ps else (c :: p) :: ps := by
  rw [pySplitDot, h]

/-- `split('.')` never returns the empty list. -/
lemma pySplitDot_ne_nil (d : List Char) : pySplitDot d ≠ [] := by
  cases d with
  | nil => simp [pySplitDot]
  | cons c cs =>
    rw [pySplitDot]
    cases h : pySplitDot cs with
    | nil => simp
    | cons p ps => by_cases hc : c = '.' <;> simp [hc]

/-- The number of pieces of `split('.')` is the dot count plus one. -/
lemma pySplitDot_length (d : List Char) :
    (pySplitDot d).length = d.count '.' + 1 := by
  induction d with
  | nil => simp [pySplitDot]
  | cons c cs ih =>
    cases h : pySplitDot cs with
    | nil => exact absurd h (pySplitDot_ne_nil cs)
    | cons p ps =>
      rw [h] at ih
      rw [pySplitDot_cons c cs p ps h]
      by_cases hc : c = '.'
      · subst hc
        simp only [if_pos rfl, List.length_cons, List.count_cons, beq_self_eq_true,
          if_true] at *
        omega
      · rw [if_neg hc]
        simp only [List.length_cons, List.count_cons] at *
        have : (cs.count '.' + if c == '.' then 1 else 0) = cs.count '.' := by
          simp [hc]
        omega

/-- At least two pieces means the string contains a dot. -/
lemma dot_mem_of_two_parts (d : List Char) (h : 2 ≤ (pySplitDot d).length) :
    '.' ∈ d := by
  rw [pySplitDot_length] at h
  exact List.count_pos_iff.mp (by omega)

/-- A leading dot produces an empty piece. -/
lemma nil_mem_pySplitDot_of_head_dot (d : List Char) (h : d.head? = some '.') :
    [] ∈ pySplitDot d := by
  cases d with
  | nil => simp at h
  | cons c cs =>
    simp at h
    subst h
    cases h2 : pySplitDot cs with
    | nil => exact absurd h2 (pySplitDot_ne_nil cs)
    | cons p ps =>
      rw [pySplitDot_cons _ cs p ps h2]
      simp

/-- A trailing dot makes the last piece empty. -/
lemma getLast_pySplitDot_of_last_dot (d : List Char) (h : d.getLast? = some '.') :
    (pySplitDot d).getLast? = some [] := by
  induction d with
  | nil => simp at h
  | cons c cs ih =>
    cases cs with
    | nil =>
      simp at h
      subst h
      decide
    | cons x xs =>
      rw [List.getLast?_cons_cons] at h
      have hmem : '.' ∈ x :: xs := by
        rcases List.getLast?_eq_some_iff.mp h with ⟨ys, hys⟩
        rw [hys]; simp
      have hlen : 2 ≤ (pySplitDot (x :: xs)).length := by
        rw [pySplitDot_length]
        have := List.count_pos_iff.mpr hmem
        omega
      have ihr := ih h
      cases h2 : pySplitDot (x :: xs) with
      | nil => exact absurd h2 (pySplitDot_ne_nil _)
      | cons p ps =>
        have hps : ps ≠ [] := by
          rw [h2] at hlen
          intro hn
          rw [hn] at hlen
          simp at hlen
        rw [h2] at ihr
        rw [pySplitDot_cons c _ p ps h2]
        by_cases hc : c = '.'
        · rw [if_pos hc, List.getLast?_cons_cons]
          exact ihr
        · rw [if_neg hc]
          cases ps with
          | nil => exact absurd rfl hps
          | cons q qs =>
            rw [List.getLast?_cons_cons]
            rw [List.getLast?_cons_cons] at ihr
            exact ihr

/-- Two adjacent dots produce an empty piece (beyond the first piece). -/
lemma nil_mem_tail_pySplitDot_of_double_dot :
    ∀ d : List Char, hasDoubleDot d = true → [] ∈ (pySplitDot d).tail := by
  intro d
  induction d with
  | nil => intro h; simp [hasDoubleDot] at h
  | cons a tail ih =>
    intro h
    cases tail with
    | nil => simp [hasDoubleDot] at h
    | cons b rest =>
      rw [hasDoubleDot] at h
      obtain ⟨q, qs, hq⟩ : ∃ q qs, pySplitDot (b :: rest) = q :: qs := by
        cases h2 : pySplitDot (b :: rest) with
        | nil => exact absurd h2 (pySplitDot_ne_nil _)
        | cons q qs => exact ⟨q, qs, rfl⟩
      rw [pySplitDot_cons a _ q qs hq]
      rcases (Bool.or_eq_true _ _).mp h with hab | htail
      · simp only [Bool.and_eq_true, beq_iff_eq] at hab
        obtain ⟨ha, hb⟩ := hab
        have hq0 : q = [] := by
          subst hb
          cases h3 : pySplitDot rest with
          | nil => exact absurd h3 (pySplitDot_ne_nil _)
          | cons r rs =>
            rw [pySplitDot_cons _ rest r rs h3] at hq
            simp at hq
            exact hq.1
        rw [if_pos ha, hq0]
        simp
      · have ihm := ih htail
        rw [hq] at ihm
        simp only [List.tail_cons] at ihm
        by_cases hc : a = '.'
        · rw [if_pos hc]
          simp only [List.tail_cons]
          exact List.mem_cons_of_mem q ihm
        · rw [if_neg hc]
          simpa using ihm

/-- Any member of a list is in its `dropLast` or is its last element. -/
lemma mem_dropLast_or_getLast {α : Type} :
    ∀ (l : List α) (x : α), x ∈ l → x ∈ l.dropLast ∨ l.getLast? = some x := by
  intro l
  induction l with
  | nil => intro x hx; simp at hx
  | cons a tail ih =>
    intro x hx
    cases tail with
    | nil =>
      simp at hx
      subst hx
      right
      simp
    | cons b rest =>
      rcases List.mem_cons.mp hx with hxa | hxt
      · left
        subst hxa
        simp [List.dropLast]
      · rcases ih x hxt with hm | hl
        · left
          have hd : (a :: b :: rest).dropLast = a :: (b :: rest).dropLast := by
            simp [List.dropLast]
          rw [hd]
          exact List.mem_cons_of_mem a hm
        · right
          rw [List.getLast?_cons_cons]
          exact hl

/-- A label group accepted by the domain pattern is 1–63 characters. -/
lemma goodLabel_length (p : List Char) (h : goodLabel p = true) :
    1 ≤ p.length ∧ p.length ≤ 63 := by
  rw [goodLabel] at h
  simp only [Bool.and_eq_true, decide_eq_true_eq] at h
  exact ⟨h.1.1.1.1, h.1.1.1.2⟩

/-- A TLD accepted by the domain pattern is 2+ ASCII letters. -/
lemma tldOk_spec (p : List Char) (h : tldOk p = true) :
    2 ≤ p.length ∧ ∀ c ∈ p, isAsciiAlpha c = true := by
  rw [tldOk] at h
  simp only [Bool.and_eq_true, decide_eq_true_eq, List.all_eq_true] at h
  exact h

/-- Under the domain pattern every dot-separated piece is nonempty. -/
lemma domainCore_parts_ne_nil (d : List Char) (h : domainCore d = true) :
    ∀ p ∈ pySplitDot d, p ≠ [] := by
  rw [domainCore] at h
  simp only [Bool.and_eq_true, decide_eq_true_eq, List.all_eq_true] at h
  obtain ⟨⟨_, hlab⟩, htld⟩ := h
  intro p hp
  rcases mem_dropLast_or_getLast (pySplitDot d) p hp with hm | hl
  · have := goodLabel_length p (hlab p hm)
    intro hn
    rw [hn] at this
    simp at this
  · have hD : (pySplitDot d).getLastD [] = p := by
      rw [List.getLastD_eq_getLast?, hl]
      rfl
    rw [hD] at htld
    have := tldOk_spec p htld
    intro hn
    rw [hn] at this
    simp at this

/-- The label loop only ever produces its two messages. -/
lemma checkLabels_some_msg (ls : List (List Char)) (msg : String)
    (h : checkLabels ls = some msg) :
    msg = "Domain label exceeds 63 characters" ∨
    msg = "Domain labels cannot start or end with hyphen" := by
  induction ls with
  | nil => simp [checkLabels] at h
  | cons a as ih =>
    rw [checkLabels] at h
    split at h
    · left
      exact (Option.some_inj.mp h).symm
    · split at h
      · right
        exact (Option.some_inj.mp h).symm
      · exact ih h

/-- If every check passed, all the guard conditions held. -/
lemma validateTrimmed_true (e : List Char) (h : (validateTrimmed e).1 = true) :
    e.length ≤ 254 ∧ e.count '@' = 1 ∧
    ∃ l d, rsplitAt e = some (l, d) ∧
      l ≠ [] ∧ l.length ≤ 64 ∧ reMatchLocal l = true ∧ hasDoubleDot l = false ∧
      d ≠ [] ∧ 3 ≤ d.length ∧ reMatchDomain d = true ∧
      checkLabels (pySplitDot d) = none ∧
      2 ≤ ((pySplitDot d).getLastD []).length := by
  unfold validateTrimmed at h
  split at h
  next h254 => simp at h
  next h254 =>
  split at h
  next hcnt => simp at h
  next hcnt =>
  split at h
  next hsplit => simp at h
  next locPart domPart hsplit =>
  split at h
  next hloc => simp at h
  next hloc =>
  split at h
  next hlp => simp at h
  next hlp =>
  split at h
  next hdd => simp at h
  next hdd =>
  split at h
  next hdom => simp at h
  next hdom =>
  split at h
  next hdp => simp at h
  next hdp =>
  split at h
  next msg hcl => simp at h
  next hcl =>
  split at h
  next htld => simp at h
  next htld =>
  simp only [not_lt, not_le, ne_eq] at h254 htld
  simp only [Bool.or_eq_true, Bool.not_eq_true, List.isEmpty_eq_true, decide_eq_true_eq,
    not_or] at hloc hdom
  simp only [Bool.not_eq_true', Bool.not_eq_false] at hlp hdp
  simp only [Bool.not_eq_true] at hdd
  refine ⟨by omega, not_not.mp hcnt, locPart, domPart, hsplit, hloc.1, by omega,
    hlp, hdd, hdom.1, by omega, hdp, hcl, htld⟩

/-- A verdict of `true` on a string input means the string was nonempty
and the post-strip checks all passed. -/
lemma validate_email_str_true (s : List Char)
    (h : (validate_email (.str s)).1 = true) :
    s ≠ [] ∧ (validateTrimmed (pyStrip s)).1 = true := by
  rw [validate_email] at h
  by_cases hs : s.isEmpty
  · rw [if_pos hs] at h
    simp at h
  · rw [if_neg hs] at h
    exact ⟨by simpa using hs, h⟩

/-! ## Claims -/

/-- Claim C1, counterexample: `"   "` is empty after trimming, yet the
result is not `(false, "Email cannot be empty")` — the emptiness guard
runs on the raw input before the strip, so an all-whitespace string
falls through to the at-sign-count check. -/
theorem c1_counterexample :
    pyStrip "   ".data = [] ∧
    validate_email (.str "   ".data) =
      (false, "Email must contain exactly one @ symbol") ∧
    validate_email (.str "   ".data) ≠ (false, "Email cannot be empty") := by
  refine ⟨by decide, by decide, by decide⟩

/-- Claim C1, amended: an absent input, a non-string input, or the empty
string yields exactly `(false, "Email cannot be empty")`; a non-empty
string that is empty after trimming is still rejected, but with the
message "Email must contain exactly one @ symbol". -/
theorem c1_empty_guard :
    (∀ inp : PyInput,
      (inp = PyInput.none ∨ (∃ t, inp = PyInput.nonStr t) ∨ inp = PyInput.str []) →
      validate_email inp = (false, "Email cannot be empty")) ∧
    (∀ s : List Char, s ≠ [] → (∀ c ∈ s, isPySpace c = true) →
      validate_email (.str s) = (false, "Email must contain exactly one @ symbol")) := by
  constructor
  · intro inp hinp
    rcases hinp with h | ⟨t, h⟩ | h <;> subst h <;> rfl
  · intro s hs hsp
    rw [validate_email, if_neg (by simpa using hs), pyStrip_eq_nil_of_space s hsp]
    decide

/-- Claim C1, witness for the amended statement at a concrete input. -/
theorem c1_empty_guard_witness :
    validate_email (.str [' ']) = (false, "Email must contain exactly one @ symbol") :=
  c1_empty_guard.2 [' '] (by decide) (by decide)

/-- Claim C2, counterexample: validating `" "` and validating its
trimmed form `""` give different results (both invalid, but the reasons
differ, because the emptiness guard precedes the strip). -/
theorem c2_counterexample :
    validate_email (.str " ".data) ≠ validate_email (.str (pyStrip " ".data)) := by
  decide

/-- Claim C2, amended: the result pair is invariant under surrounding
whitespace whenever the trimmed string is non-empty, and the validity
bit is invariant for every string; only on non-empty all-whitespace
strings do the two reasons differ. -/
theorem c2_trim_invariant (s : List Char) :
    (pyStrip s ≠ [] →
      validate_email (.str s) = validate_email (.str (pyStrip s))) ∧
    (validate_email (.str s)).1 = (validate_email (.str (pyStrip s))).1 := by
  have hmain : pyStrip s ≠ [] →
      validate_email (.str s) = validate_email (.str (pyStrip s)) := by
    intro h
    have hs : s ≠ [] := by
      intro hnil
      subst hnil
      exact h rfl
    rw [validate_email, validate_email, if_neg (by simpa using hs),
      if_neg (by simpa using h), pyStrip_idem]
  refine ⟨hmain, ?_⟩
  by_cases h : pyStrip s = []
  · rw [h]
    by_cases hs : s = []
    · subst hs
      rfl
    · rw [validate_email, if_neg (by simpa using hs), h]
      decide
  · rw [hmain h]

/-- Claim C2, witness at a concrete input with surrounding whitespace. -/
theorem c2_trim_invariant_witness :
    validate_email (.str "  a@b.co  ".data) =
      validate_email (.str (pyStrip "  a@b.co  ".data)) :=
  (c2_trim_invariant "  a@b.co  ".data).1 (by decide)

/-- Claim C4: a trimmed at-sign count different from one always gives an
invalid verdict, and when the (pre-trim) emptiness guard and the length
guard pass, the result is exactly the at-sign message. -/
theorem c4_single_at (s : List Char) (h : (pyStrip s).count '@' ≠ 1) :
    (validate_email (.str s)).1 = false ∧
    (s ≠ [] → (pyStrip s).length ≤ 254 →
      validate_email (.str s) = (false, "Email must contain exactly one @ symbol")) := by
  constructor
  · cases hres : (validate_email (.str s)).1 with
    | false => rfl
    | true =>
      obtain ⟨-, ht⟩ := validate_email_str_true s hres
      obtain ⟨-, hcnt, -⟩ := validateTrimmed_true _ ht
      exact absurd hcnt h
  · intro hs h254
    rw [validate_email, if_neg (by simpa using hs)]
    unfold validateTrimmed
    rw [if_neg (by omega), if_pos h]

/-- Claim C4, witness at the at-sign-free string `"ab"`. -/
theorem c4_single_at_witness :
    (validate_email (.str "ab".data)).1 = false ∧
    ("ab".data ≠ [] → (pyStrip "ab".data).length ≤ 254 →
      validate_email (.str "ab".data) =
        (false, "Email must contain exactly one @ symbol")) :=
  c4_single_at "ab".data (by decide)

/-- Claim C5: exceeding any length bound — trimmed length over 254,
local part over 64 characters, or any dot-separated domain label over
63 characters (the final TLD label included, which the domain pattern
alone does not bound) — forces an invalid verdict. -/
theorem c5_length_bounds (s l d : List Char)
    (hbad : (pyStrip s).length > 254 ∨
      (rsplitAt (pyStrip s) = some (l, d) ∧
        (l.length > 64 ∨ ∃ lab ∈ pySplitDot d, lab.length > 63))) :
    (validate_email (.str s)).1 = false := by
  cases hres : (validate_email (.str s)).1 with
  | false => rfl
  | true =>
    exfalso
    obtain ⟨-, ht⟩ := validate_email_str_true s hres
    obtain ⟨h254, -, l2, d2, hsplit2, -, hl64, -, -, -, -, -, hcl, -⟩ :=
      validateTrimmed_true _ ht
    rcases hbad with h | ⟨hsplit, hrest⟩
    · omega
    · rw [hsplit] at hsplit2
      have hpair := Option.some_inj.mp hsplit2
      have hl : l = l2 := congrArg Prod.fst hpair
      have hd : d = d2 := congrArg Prod.snd hpair
      rcases hrest with h64 | ⟨lab, hmem, h63⟩
      · rw [hl] at h64
        omega
      · rw [hd] at hmem
        have := (checkLabels_eq_none _ hcl lab hmem).1
        omega

/-- Claim C5, witness: a 65-character local part is rejected. -/
theorem c5_length_bounds_witness :
    (validate_email (.str (List.replicate 65 'a' ++ "@b.co".data))).1 = false :=
  c5_length_bounds (List.replicate 65 'a' ++ "@b.co".data)
    (List.replicate 65 'a') "b.co".data
    (Or.inr ⟨by decide, Or.inl (by decide)⟩)

/-- The reason strings appearing in `validate_email`, in source order. -/
def allMessages : List String :=
  ["Email cannot be empty",
   "Email exceeds maximum length of 254 characters",
   "Email must contain exactly one @ symbol",
   "Invalid email format",
   "Local part must be 1-64 characters",
   "Local part contains invalid characters or format",
   "Local part cannot contain consecutive dots",
   "Domain part is too short",
   "Domain contains invalid characters or format",
   "Domain label exceeds 63 characters",
   "Domain labels cannot start or end with hyphen",
   "Top-level domain must be at least 2 characters",
   "Valid email address"]

/-- Every outcome of the post-strip checks is a pair whose reason is one
of the fixed messages. -/
lemma validateTrimmed_msg_mem (e : List Char) :
    ∃ b msg, validateTrimmed e = (b, msg) ∧ msg ∈ allMessages := by
  unfold validateTrimmed
  split
  next => exact ⟨_, _, rfl, by decide⟩
  next =>
  split
  next => exact ⟨_, _, rfl, by decide⟩
  next =>
  split
  next => exact ⟨_, _, rfl, by decide⟩
  next locPart domPart hsplit =>
  split
  next => exact ⟨_, _, rfl, by decide⟩
  next =>
  split
  next => exact ⟨_, _, rfl, by decide⟩
  next =>
  split
  next => exact ⟨_, _, rfl, by decide⟩
  next =>
  split
  next => exact ⟨_, _, rfl, by decide⟩
  next =>
  split
  next => exact ⟨_, _, rfl, by decide⟩
  next =>
  split
  next msg hcl =>
    rcases checkLabels_some_msg _ _ hcl with h | h
    · subst h
      exact ⟨_, _, rfl, by decide⟩
    · subst h
      exact ⟨_, _, rfl, by decide⟩
  next =>
  split
  next => exact ⟨_, _, rfl, by decide⟩
  next => exact ⟨_, _, rfl, by decide⟩

/-- Claim C3: `validate_email` is total — every input whatsoever (absent
value, non-string, any string) produces a `(is_valid, reason)` pair, the
reason being one of the function's fixed messages; the one potentially
raising operation, unpacking `rsplit`, is modelled by the `Option` of
`rsplitAt` and its failure case is a handled return, so no exception
escapes. -/
theorem c3_totality (inp : PyInput) :
    ∃ b msg, validate_email inp = (b, msg) ∧ msg ∈ allMessages := by
  cases inp with
  | none => exact ⟨_, _, rfl, by decide⟩
  | nonStr t => exact ⟨_, _, rfl, by decide⟩
  | str s =>
    rw [validate_email]
    by_cases hs : s.isEmpty
    · rw [if_pos hs]
      exact ⟨_, _, rfl, by decide⟩
    · rw [if_neg hs]
      exact validateTrimmed_msg_mem (pyStrip s)

/-- Claim C6 (code bug witness): `"ab\n@x.co"` is declared valid even
though its local part `"ab\n"` ends in a newline, a character outside
`[A-Za-z0-9._+-]`: in Python `re.match` the `$` anchor also matches just
before a trailing newline, so `"ab\n"` passes the local-part pattern. -/
theorem c6_newline_local_accepted :
    validate_email (.str "ab\n@x.co".data) = (true, "Valid email address") ∧
    rsplitAt (pyStrip "ab\n@x.co".data) = some ("ab\n".data, "x.co".data) ∧
    '\n' ∈ "ab\n".data ∧ isAsciiAlnum '\n' = false ∧ isSepChar '\n' = false := by
  refine ⟨by decide, by decide, by decide, by decide, by decide⟩

/-- The post-strip checks never produce the consecutive-dots message:
reaching that check requires the local pattern to have matched, and a
matched local part has no adjacent dots. -/
lemma validateTrimmed_no_dd_msg (e : List Char) :
    (validateTrimmed e).2 ≠ "Local part cannot contain consecutive dots" := by
  unfold validateTrimmed
  split
  next => decide
  next =>
  split
  next => decide
  next =>
  split
  next => decide
  next locPart domPart hsplit =>
  split
  next => decide
  next =>
  split
  next => decide
  next hlp =>
  split
  next hdd =>
    exfalso
    simp only [Bool.not_eq_true', Bool.not_eq_false] at hlp
    have hno := reMatchLocal_no_double_dot locPart hlp
    rw [hno] at hdd
    exact absurd hdd (by decide)
  next =>
  split
  next => decide
  next =>
  split
  next => decide
  next =>
  split
  next msg hcl =>
    rcases checkLabels_some_msg _ _ hcl with h | h
    · subst h
      decide
    · subst h
      decide
  next =>
  split
  next => decide
  next => decide

/-- Claim C9: the explicit consecutive-dot check is dead in practice —
no input ever yields the reason "Local part cannot contain consecutive
dots", because a local part containing `".."` already fails the
preceding pattern check. -/
theorem c9_consecutive_dots_unreachable (inp : PyInput) :
    (validate_email inp).2 ≠ "Local part cannot contain consecutive dots" := by
  cases inp with
  | none => decide
  | nonStr t =>
    rw [validate_email]
    decide
  | str s =>
    rw [validate_email]
    by_cases hs : s.isEmpty
    · rw [if_pos hs]
      decide
    · rw [if_neg hs]
      exact validateTrimmed_no_dd_msg (pyStrip s)

/-- The post-strip checks never produce the rsplit-failure message: that
branch requires `rsplitAt` to fail, which only happens on strings with
no `'@'`, while the preceding check established an at-sign count of
exactly one. -/
lemma validateTrimmed_no_invalid_format_msg (e : List Char) :
    (validateTrimmed e).2 ≠ "Invalid email format" := by
  unfold validateTrimmed
  split
  next => decide
  next =>
  split
  next => decide
  next hcnt =>
  split
  next hsplit =>
    exfalso
    have h0 := rsplitAt_none_count e hsplit
    have h1 := not_not.mp hcnt
    omega
  next locPart domPart hsplit =>
  split
  next => decide
  next =>
  split
  next => decide
  next =>
  split
  next => decide
  next =>
  split
  next => decide
  next =>
  split
  next => decide
  next =>
  split
  next msg hcl =>
    rcases checkLabels_some_msg _ _ hcl with h | h
    · subst h
      decide
    · subst h
      decide
  next =>
  split
  next => decide
  next => decide

/-- Claim C10: the `ValueError` branch of the `'@'`-split is dead — no
input ever yields the reason "Invalid email format", because
`rsplit('@', 1)` cannot fail to produce two parts once the string is
known to contain exactly one `'@'`. -/
theorem c10_invalid_format_unreachable (inp : PyInput) :
    (validate_email inp).2 ≠ "Invalid email format" := by
  cases inp with
  | none => decide
  | nonStr t =>
    rw [validate_email]
    decide
  | str s =>
    rw [validate_email]
    by_cases hs : s.isEmpty
    · rw [if_pos hs]
      decide
    · rw [if_neg hs]
      exact validateTrimmed_no_invalid_format_msg (pyStrip s)

/-- Claim C8: an input passing all checks — non-empty, at most 254
characters after trimming, exactly one `'@'`, local part 1–64 characters
matching the local pattern with no consecutive dots, domain at least 3
characters matching the domain pattern with every label at most 63
characters and no hyphen-edged label, TLD at least 2 characters — yields
exactly `(true, "Valid email address")`. -/
theorem c8_all_checks_pass (s l d : List Char) (hs : s ≠ [])
    (hsplit : rsplitAt (pyStrip s) = some (l, d))
    (h254 : (pyStrip s).length ≤ 254)
    (hcnt : (pyStrip s).count '@' = 1)
    (hl0 : l ≠ []) (hl64 : l.length ≤ 64)
    (hlp : reMatchLocal l = true) (hdd : hasDoubleDot l = false)
    (hd3 : 3 ≤ d.length) (hdp : reMatchDomain d = true)
    (hcl : checkLabels (pySplitDot d) = none)
    (htld : 2 ≤ ((pySplitDot d).getLastD []).length) :
    validate_email (.str s) = (true, "Valid email address") := by
  rw [validate_email, if_neg (by simpa using hs)]
  unfold validateTrimmed
  split
  next h => omega
  next =>
  split
  next h => omega
  next =>
  split
  next h =>
    rw [h] at hsplit
    exact absurd hsplit (by simp)
  next locPart domPart heq =>
    rw [hsplit] at heq
    have hpair := Option.some_inj.mp heq
    have hpl : locPart = l := (congrArg Prod.fst hpair).symm
    have hpd : domPart = d := (congrArg Prod.snd hpair).symm
    subst hpl
    subst hpd
    split
    next h =>
      simp only [Bool.or_eq_true, List.isEmpty_eq_true, decide_eq_true_eq] at h
      rcases h with h | h
      · exact absurd h hl0
      · omega
    next =>
    split
    next h =>
      rw [hlp] at h
      exact absurd h (by decide)
    next =>
    split
    next h =>
      rw [hdd] at h
      exact absurd h (by decide)
    next =>
    split
    next h =>
      simp only [Bool.or_eq_true, List.isEmpty_eq_true, decide_eq_true_eq] at h
      rcases h with h | h
      · subst h
        simp at hd3
      · omega
    next =>
    split
    next h =>
      rw [hdp] at h
      exact absurd h (by decide)
    next =>
    split
    next msg hcl2 =>
      rw [hcl] at hcl2
      exact absurd hcl2 (by simp)
    next =>
    split
    next h => omega
    next => rfl

/-- Claim C8, witness: the spec's canonical example. -/
theorem c8_all_checks_pass_witness :
    validate_email (.str "user@example.com".data) = (true, "Valid email address") :=
  c8_all_checks_pass "user@example.com".data "user".data "example.com".data
    (by decide) (by decide) (by decide) (by decide) (by decide) (by decide)
    (by decide) (by decide) (by decide) (by decide) (by decide) (by decide)

/-- Claim C7: with exactly one `'@'`, a malformed domain — no dot, a
leading or trailing dot, consecutive dots, a label starting or ending
with a hyphen, or a final TLD label shorter than 2 characters or with a
non-alphabetic character — forces an invalid verdict.  (The trailing
newline that the `$` anchor tolerates cannot occur in the domain: the
domain is a suffix of the stripped string, whose last character is never
whitespace.) -/
theorem c7_domain_shape (s l d : List Char)
    (_hcnt : (pyStrip s).count '@' = 1)
    (hsplit : rsplitAt (pyStrip s) = some (l, d))
    (hbad : ('.' ∉ d) ∨ d.head? = some '.' ∨ d.getLast? = some '.' ∨
      hasDoubleDot d = true ∨
      (∃ lab ∈ pySplitDot d, lab.head? = some '-' ∨ lab.getLast? = some '-') ∨
      ((pySplitDot d).getLastD []).length < 2 ∨
      (∃ c ∈ (pySplitDot d).getLastD [], isAsciiAlpha c = false)) :
    (validate_email (.str s)).1 = false := by
  cases hres : (validate_email (.str s)).1 with
  | false => rfl
  | true =>
    exfalso
    obtain ⟨-, ht⟩ := validate_email_str_true s hres
    obtain ⟨-, -, l2, d2, hsplit2, -, -, -, -, hdne, -, hdp, hcl, htld⟩ :=
      validateTrimmed_true _ ht
    rw [hsplit] at hsplit2
    have hpair := Option.some_inj.mp hsplit2
    have hdeq : d = d2 := congrArg Prod.snd hpair
    rw [← hdeq] at hdne hdp hcl htld
    have hcore : domainCore d = true := by
      rcases (Bool.or_eq_true _ _).mp hdp with hc | hnl
      · exact hc
      · exfalso
        simp only [Bool.and_eq_true, beq_iff_eq] at hnl
        have he : pyStrip s = l ++ '@' :: d := rsplitAt_eq_append _ _ _ hsplit
        have hlast : (pyStrip s).getLast? = d.getLast? := by
          rw [he, List.getLast?_append_of_ne_nil _ (by simp)]
          cases d with
          | nil => exact absurd rfl hdne
          | cons x xs => rw [List.getLast?_cons_cons]
        have := pyStrip_getLast_not_space s '\n' (by rw [hlast]; exact hnl.1)
        exact absurd this (by decide)
    have hnonempty := domainCore_parts_ne_nil d hcore
    rw [domainCore] at hcore
    simp only [Bool.and_eq_true, decide_eq_true_eq, List.all_eq_true] at hcore
    obtain ⟨⟨hlen2, -⟩, htldok⟩ := hcore
    rcases hbad with hnd | hhd | hld | hdd | ⟨lab, hmem, hhy⟩ | hshort | ⟨c, hcmem, hna⟩
    · exact hnd (dot_mem_of_two_parts d hlen2)
    · exact hnonempty [] (nil_mem_pySplitDot_of_head_dot d hhd) rfl
    · have hl0 := getLast_pySplitDot_of_last_dot d hld
      exact hnonempty [] (List.mem_of_getLast?_eq_some hl0) rfl
    · have hl0 := nil_mem_tail_pySplitDot_of_double_dot d hdd
      exact hnonempty [] (List.mem_of_mem_tail hl0) rfl
    · have hc := checkLabels_eq_none _ hcl lab hmem
      rcases hhy with h1 | h1
      · exact hc.2.1 h1
      · exact hc.2.2 h1
    · omega
    · have ha := (tldOk_spec _ htldok).2 c hcmem
      rw [ha] at hna
      exact absurd hna (by decide)

/-- Claim C7, witness: a one-letter TLD is rejected. -/
theorem c7_domain_shape_witness :
    (validate_email (.str "a@b.c".data)).1 = false :=
  c7_domain_shape "a@b.c".data "a".data "b.c".data (by decide) (by decide)
    (Or.inr (Or.inr (Or.inr (Or.inr (Or.inr (Or.inl (by decide)))))))

-- Sanity checks against the Python test suite.
example : validate_email (.str "user@example.com".data) = (true, "Valid email address") := by decide
example : validate_email (.str "a@b.co".data) = (true, "Valid email address") := by decide
example : validate_email (.str "user+tag@example.com".data) = (true, "Valid email address") := by decide
example : validate_email (.str "  user@example.com  ".data) = (true, "Valid email address") := by decide
example : (validate_email (.str ".user@example.com".data)).1 = false := by decide
example : (validate_email (.str "user..name@example.com".data)).1 = false := by decide
example : (validate_email (.str "user@domain-.com".data)).1 = false := by decide
example : (validate_email (.str "user@example.123".data)).1 = false := by decide
example : (validate_email (.str "user@example.c".data)).1 = false := by decide
example : (validate_email (.str "user@example".data)).1 = false := by decide
example : (validate_email (.str "user@@example.com".data)).1 = false := by decide
example : (validate_email (.str "user name@example.com".data)).1 = false := by decide
example : validate_email PyInput.none = (false, "Email cannot be empty") := by decide

end EmailValidator
